import Mathlib

/-!
Formalisation of `benchmark_plot.py`.

The script parses a benchmark log with two regular expressions, groups runtime
samples under a rolling `(block_size, thread_size)` header, aggregates each
group with a geometric mean, and fills a 9 by 9 grid indexed by the positions
of the header values among the candidates `[1, 2, 4, ..., 256]`.

The two regular expressions are embedded through a small set of greedy
backtracking combinators in continuation-passing style.  The combinators
reproduce the search order of Python's `re` module (leftmost match of
`re.match`, each greedy quantifier preferring the longest repetition first,
backtracking right-to-left), so the captured groups agree with CPython.
Python specifics that matter and are modelled: `.` matches any character
except a newline, and `$` matches at the end of the input or just before a
single trailing newline.  `\d` and `[0-9]` are both modelled as ASCII digits
(the log files are ASCII).  Numeric values are modelled in `ℚ`; this is exact
for every value exercised in the development (Python's binary floats agree on
those inputs).  Python raises `ZeroDivisionError` when a runtime line has
trailing integer `0` (`float(g1) / float(g2)` with `float(g2) == 0.0`);
`match_runtime` models this with `Except.error "float division by zero"`,
which the parser loop propagates, aborting the run exactly as CPython does —
the source evaluates `match_runtime(line)` unconditionally on every line.
-/

/-- Character class of `.` in a Python pattern: any character except a
newline (`re.DOTALL` is off in the source). -/
def anyCh (c : Char) : Bool := c ≠ '\n'

/-- Python `$` (without `re.MULTILINE`): matches at the end of the string, or
just before a newline that is the last character. -/
def endP : List Char → Bool
  | [] => true
  | [c] => c = '\n'
  | _ => false

/-- Literal fragment of a pattern: consume exactly `lit`, then continue with
`k` on the remaining input; fail if the input does not start with `lit`. -/
def litP (lit s : List Char) (k : List Char → Option α) : Option α :=
  match lit, s with
  | [], rest => k rest
  | _ :: _, [] => none
  | l :: lr, c :: cr => if c = l then litP lr cr k else none

/-- Greedy `c*` over a one-character class `p`: prefer consuming another
character, fall back to stopping here (Python backtracking order). -/
def starCh (p : Char → Bool) (s : List Char) (k : List Char → Option α) : Option α :=
  match s with
  | [] => k []
  | c :: rest => if p c then (starCh p rest k) <|> k (c :: rest) else k (c :: rest)

/-- Greedy `c+` over a one-character class `p`. -/
def plusCh (p : Char → Bool) (s : List Char) (k : List Char → Option α) : Option α :=
  match s with
  | [] => none
  | c :: rest => if p c then starCh p rest k else none

/-- Greedy capturing `c*`: like `starCh` but the consumed characters are
passed to the continuation as the capture. -/
def starChCap (p : Char → Bool) (s : List Char)
    (k : List Char → List Char → Option α) : Option α :=
  match s with
  | [] => k [] []
  | c :: rest =>
    if p c then (starChCap p rest (fun cap r => k (c :: cap) r)) <|> k [] (c :: rest)
    else k [] (c :: rest)

/-- Greedy capturing `c+`. -/
def plusChCap (p : Char → Bool) (s : List Char)
    (k : List Char → List Char → Option α) : Option α :=
  match s with
  | [] => none
  | c :: rest => if p c then starChCap p rest (fun cap r => k (c :: cap) r) else none

/-- Greedy optional fractional part, the fragment `(?:\.\d+)?` of the runtime
pattern: first try to read a dot followed by one or more digits (passing the
digits, without the dot, as the capture), otherwise continue with an empty
capture. -/
def fracOpt (s : List Char) (k : List Char → List Char → Option α) : Option α :=
  (match s with
   | '.' :: rest => plusChCap Char.isDigit rest k
   | _ => none) <|> k [] s

/-- Value of a digit string, as Python `int` computes it on a decimal
numeral. -/
def digitsToNat (l : List Char) : Nat :=
  l.foldl (fun n c => 10 * n + (c.toNat - 48)) 0

/-- Value of a decimal numeral with integer part `ip` and fractional digits
`fd`, as Python `float` parses `ip.fd` (exact in `ℚ`). -/
def decimalVal (ip fd : List Char) : ℚ :=
  (digitsToNat ip : ℚ) + (digitsToNat fd : ℚ) / (10 : ℚ) ^ fd.length

/-- Literal prefix of the header pattern. -/
def hdrPre : String := "# OPEN3D_PARFOR_BLOCK: "

/-- Literal middle part of the header pattern. -/
def hdrMid : String := ", OPEN3D_PARFOR_THREAD: "

/-- Embedding of `match_block_thread_size` from `benchmark_plot.py`:
`re.match(r"^# OPEN3D_PARFOR_BLOCK: ([0-9]+), OPEN3D_PARFOR_THREAD: ([0-9]+)", line)`,
returning `int(group 1), int(group 2)` on a match and `None` otherwise.
The pattern has no `$`, so arbitrary text may follow the second integer. -/
def match_block_thread_size (line : String) : Option (Nat × Nat) :=
  litP hdrPre.toList line.toList (fun s1 =>
  plusChCap Char.isDigit s1 (fun g1 s2 =>
  litP hdrMid.toList s2 (fun s3 =>
  plusChCap Char.isDigit s3 (fun g2 _r =>
  some (digitsToNat g1, digitsToNat g2)))))

/-- Capture phase of `match_runtime` from `benchmark_plot.py`: runs
`re.match(r"^.* +(\d+(?:\.\d+)?) ms +.*ms +([0-9]+)$", line)` and returns the
raw captured digit strings `((integer part of group 1, fractional digits of
group 1), group 2)`, or `none` when the pattern does not match.  The division
performed by the source on the captured groups is split into the wrapper
`match_runtime` below so that this phase stays kernel-evaluable. -/
def match_runtime_groups (line : String) :
    Option ((List Char × List Char) × List Char) :=
  starCh anyCh line.toList (fun s1 =>
  plusCh (fun c => c = ' ') s1 (fun s2 =>
  plusChCap Char.isDigit s2 (fun ip s3 =>
  fracOpt s3 (fun fd s4 =>
  litP " ms".toList s4 (fun s5 =>
  plusCh (fun c => c = ' ') s5 (fun s6 =>
  starCh anyCh s6 (fun s7 =>
  litP "ms".toList s7 (fun s8 =>
  plusCh (fun c => c = ' ') s8 (fun s9 =>
  plusChCap Char.isDigit s9 (fun ds s10 =>
  if endP s10 then some ((ip, fd), ds) else none))))))))))

/-- Embedding of `match_runtime` from `benchmark_plot.py`: on a match of the
pattern `^.* +(\d+(?:\.\d+)?) ms +.*ms +([0-9]+)$` it returns
`float(group 1) / float(group 2)`, otherwise `None`; when the trailing
integer is `0` the division raises `ZeroDivisionError("float division by
zero")`, modelled as `Except.error` with that message (`float` of a digit
string is `0.0` exactly when its integer value is `0`). -/
def match_runtime (line : String) : Except String (Option ℚ) :=
  match match_runtime_groups line with
  | none => .ok none
  | some g =>
    if digitsToNat g.2 = 0 then .error "float division by zero"
    else .ok (some (decimalVal g.1.1 g.1.2 / (digitsToNat g.2 : ℚ)))

/-- Embedding of `extract_cpu_prefix` from `benchmark_plot.py`:
`re.match(r"^(.*_CPU).*$", filename)`; returns group 1 on a match and raises
`ValueError(f"Invalid log file {filename}")` otherwise (modelled as
`Except.error` with that message). -/
def extract_cpu_prefix (filename : String) : Except String String :=
  match starChCap anyCh filename.toList (fun cap rest =>
      litP "_CPU".toList rest (fun rest2 =>
      starCh anyCh rest2 (fun rest3 =>
      if endP rest3 then some (cap ++ "_CPU".toList) else none))) with
  | some p => .ok (String.mk p)
  | none => .error ("Invalid log file " ++ filename)

/-- A closed measurement group as appended by `parse_file`.  The source stores
`gmean(current_runtimes)` (`scipy.stats.gmean`, library code that is not part
of this repository); the record here keeps the collected sample list itself,
and the geometric mean is applied by the wrapper `parse_file` below, so that
parser-level statements about the samples are expressible. -/
structure GroupRecord where
  block_size : Nat
  thread_size : Nat
  samples : List ℚ
deriving DecidableEq

/-- The two local variables of the loop in `parse_file`:
`current_block_thread_size` and `current_runtimes`. -/
structure ParseState where
  current_block_thread_size : Option (Nat × Nat)
  current_runtimes : List ℚ
deriving DecidableEq

/-- The save step that appears twice in `parse_file` (in the loop body on a
new header, and after the loop): `if current_block_thread_size:
results.append({...})`.  A nonempty Python tuple is always truthy, so the test
is `isSome`, and a record is appended regardless of whether any runtime sample
was collected. -/
def parse_flush (acc : ParseState × List GroupRecord) : List GroupRecord :=
  match acc.1.current_block_thread_size with
  | some bt => acc.2 ++ [⟨bt.1, bt.2, acc.1.current_runtimes⟩]
  | none => acc.2

/-- One iteration of the loop of `parse_file`.  The source evaluates
`match_block_thread_size(line)` and then `match_runtime(line)`
unconditionally, so an exception raised by the runtime division aborts the
iteration (and the run) before any branch is taken.  `if num_thread:` tests
the truthiness of an optional pair, which is exactly `isSome` (a nonempty
tuple is always truthy); `elif runtime:` tests the truthiness of an optional
float, which is falsy both for `None` and for the float `0.0`. -/
def parse_step (acc : ParseState × List GroupRecord) (line : String) :
    Except String (ParseState × List GroupRecord) :=
  let num_thread := match_block_thread_size line
  match match_runtime line with
  | .error e => .error e
  | .ok runtime =>
    if num_thread.isSome then
      .ok (⟨num_thread, []⟩, parse_flush acc)
    else
      match runtime with
      | some r =>
        if r ≠ 0 then
          .ok (⟨acc.1.current_block_thread_size, acc.1.current_runtimes ++ [r]⟩, acc.2)
        else .ok acc
      | none => .ok acc

/-- The loop of `parse_file` over the lines, propagating an uncaught
exception: the first raising line aborts the whole run. -/
def parse_fold (lines : List String) (acc : ParseState × List GroupRecord) :
    Except String (ParseState × List GroupRecord) :=
  match lines with
  | [] => .ok acc
  | l :: rest =>
    match parse_step acc l with
    | .ok acc2 => parse_fold rest acc2
    | .error e => .error e

/-- The loop of `parse_file` over the lines of the log (the source strips each
line before the loop; the statements below quantify over the stripped lines),
including the final save after the loop; an uncaught `ZeroDivisionError`
yields `Except.error` instead of a record list. -/
def parse_lines (lines : List String) : Except String (List GroupRecord) :=
  (parse_fold lines (⟨none, []⟩, [])).map parse_flush

/-- Embedding of `geo_mean` from `benchmark_plot.py`:
`a.prod() ** (1.0 / len(a))`, the nth root of the product.  On positive inputs
this also coincides with `scipy.stats.gmean`, which `parse_file` calls. -/
noncomputable def geo_mean (l : List ℝ) : ℝ :=
  l.prod ^ ((1 : ℝ) / l.length)

/-- `parse_file` as the composition of the parsing loop with the geometric
mean applied to each closed group's samples. -/
noncomputable def parse_file (lines : List String) : Except String (List (Nat × Nat × ℝ)) :=
  (parse_lines lines).map (List.map
    (fun r => (r.block_size, r.thread_size, geo_mean (r.samples.map (fun q => (q : ℝ))))))

/-- Y-axis candidates of `__main__`. -/
def block_sizes : List Nat := [1, 2, 4, 8, 16, 32, 64, 128, 256]

/-- X-axis candidates of `__main__`. -/
def thread_sizes : List Nat := [1, 2, 4, 8, 16, 32, 64, 128, 256]

/-- Python `list.index`: position of the first occurrence of `v`, or
`ValueError(f"{v} is not in list")` (modelled as `Except.error` with that
message). -/
def list_index (xs : List Nat) (v : Nat) : Except String Nat :=
  match xs with
  | [] => .error (toString v ++ " is not in list")
  | x :: rest =>
    if x = v then .ok 0
    else
      match list_index rest v with
      | .ok i => .ok (i + 1)
      | .error e => .error e

/-- The rounding step `float("{:.2f}".format(result['gmean']))` of the grid
fill loop, modelled in `ℚ` as rounding to two decimal digits.  (Python formats
the binary double with round-half-even; on non-tie values, which are the only
ones exercised below, the two agree.) -/
def round2 (q : ℚ) : ℚ := (round (q * 100) : ℤ) / 100

/-- The grid initialisation `np.ones((len(block_sizes), len(thread_sizes))) * -1`:
every cell starts at the sentinel `-1`. -/
def init_grid : Nat → Nat → ℚ := fun _ _ => -1

/-- The numpy cell assignment `runtimes[y, x] = runtime`. -/
def update2 (g : Nat → Nat → ℚ) (y x : Nat) (q : ℚ) : Nat → Nat → ℚ :=
  fun i j => if i = y ∧ j = x then q else g i j

/-- A group record as consumed by the grid fill loop: the dictionary
`{"block_size": ..., "thread_size": ..., "gmean": ...}`. -/
structure AggRecord where
  block_size : Nat
  thread_size : Nat
  gmean : ℚ

/-- One iteration of the grid fill loop of `__main__`:
`y = block_sizes.index(block_size); x = thread_sizes.index(thread_size);
runtimes[y, x] = runtime`, with `list.index` failures propagated. -/
def fill_step (g : Nat → Nat → ℚ) (r : AggRecord) : Except String (Nat → Nat → ℚ) :=
  match list_index block_sizes r.block_size with
  | .error e => .error e
  | .ok y =>
    match list_index thread_sizes r.thread_size with
    | .error e => .error e
    | .ok x => .ok (update2 g y x (round2 r.gmean))

/-- The grid fill loop from a given grid: the first `ValueError` aborts the
run. -/
def fill_grid_from (g : Nat → Nat → ℚ) : List AggRecord → Except String (Nat → Nat → ℚ)
  | [] => .ok g
  | r :: rest =>
    match fill_step g r with
    | .ok g2 => fill_grid_from g2 rest
    | .error e => .error e

/-- The whole grid fill loop of `__main__`, starting from the sentinel grid. -/
def fill_grid (rs : List AggRecord) : Except String (Nat → Nat → ℚ) :=
  fill_grid_from init_grid rs

/-- A line on which the Header Matcher succeeds. -/
def is_header_line (l : String) : Bool := (match_block_thread_size l).isSome

/-- A line on which the runtime pattern matches, whether evaluating the
matched value returns a float or raises. -/
def is_runtime_line (l : String) : Bool := (match_runtime_groups l).isSome

/-- Removal of the runtime lines that occur before the first header line;
every other line is kept.  Used to state claim C9. -/
def removePreHeaderRuntimes : List String → List String
  | [] => []
  | l :: rest =>
    if is_header_line l then l :: rest
    else if is_runtime_line l then removePreHeaderRuntimes rest
    else l :: removePreHeaderRuntimes rest

theorem litP_self (lit x : List Char) (k : List Char → Option α) :
    litP lit (lit ++ x) k = k x := by
  induction lit with
  | nil => rfl
  | cons c cr ih => simp [litP, ih]

theorem litP_some (lit : List Char) (k : List Char → Option α) (v : α) :
    ∀ s : List Char, litP lit s k = some v → ∃ x, s = lit ++ x ∧ k x = some v := by
  induction lit with
  | nil => exact fun s h => ⟨s, rfl, h⟩
  | cons c cr ih =>
    intro s h
    match s with
    | [] => simp [litP] at h
    | d :: dr =>
      by_cases hd : d = c
      · subst hd
        simp only [litP, if_pos rfl] at h
        obtain ⟨x, hx, hk⟩ := ih dr h
        exact ⟨x, by simp [hx], hk⟩
      · simp [litP, hd] at h

theorem litP_of_take_ne (lit s : List Char) (k : List Char → Option α)
    (h : s.take lit.length ≠ lit) : litP lit s k = none := by
  cases hl : litP lit s k with
  | none => rfl
  | some v =>
    obtain ⟨x, hx, _⟩ := litP_some lit k v s hl
    subst hx
    exact absurd (List.take_left lit x) h

theorem orElse_some_left (a : α) (b : Option α) : (some a <|> b) = some a := rfl

theorem orElse_none_left (b : Option α) : ((none : Option α) <|> b) = b := rfl

theorem starChCap_cons_pos (p : Char → Bool) (c : Char) (rest : List Char)
    (k : List Char → List Char → Option α) (hc : p c = true) :
    starChCap p (c :: rest) k =
      ((starChCap p rest (fun cap r => k (c :: cap) r)) <|> k [] (c :: rest)) := by
  simp [starChCap, hc]

theorem starChCap_cons_neg (p : Char → Bool) (c : Char) (rest : List Char)
    (k : List Char → List Char → Option α) (hc : p c = false) :
    starChCap p (c :: rest) k = k [] (c :: rest) := by
  simp [starChCap, hc]

theorem starCh_cons_pos (p : Char → Bool) (c : Char) (rest : List Char)
    (k : List Char → Option α) (hc : p c = true) :
    starCh p (c :: rest) k = ((starCh p rest k) <|> k (c :: rest)) := by
  simp [starCh, hc]

theorem starCh_cons_neg (p : Char → Bool) (c : Char) (rest : List Char)
    (k : List Char → Option α) (hc : p c = false) :
    starCh p (c :: rest) k = k (c :: rest) := by
  simp [starCh, hc]

theorem starChCap_append (p : Char → Bool) (a : List Char) :
    ∀ (rest : List Char) (k : List Char → List Char → Option α) (v : α),
    (∀ c ∈ a, p c = true) →
    (rest = [] ∨ ∃ c r, rest = c :: r ∧ p c = false) →
    k a rest = some v →
    starChCap p (a ++ rest) k = some v := by
  induction a with
  | nil =>
    intro rest k v _ hrest hk
    rcases hrest with h0 | ⟨c, r, hcr, hpc⟩
    · subst h0; simpa [starChCap] using hk
    · subst hcr; simpa [starChCap, hpc] using hk
  | cons d dr ih =>
    intro rest k v ha hrest hk
    have hd : p d = true := ha d (by simp)
    have hin := ih rest (fun cap r => k (d :: cap) r) v
      (fun c hc => ha c (by simp [hc])) hrest hk
    rw [List.cons_append, starChCap_cons_pos p d (dr ++ rest) k hd, hin,
      orElse_some_left]

theorem plusChCap_append (p : Char → Bool) (d : Char) (dr rest : List Char)
    (k : List Char → List Char → Option α) (v : α)
    (ha : ∀ c ∈ d :: dr, p c = true)
    (hrest : rest = [] ∨ ∃ c r, rest = c :: r ∧ p c = false)
    (hk : k (d :: dr) rest = some v) :
    plusChCap p ((d :: dr) ++ rest) k = some v := by
  have hd : p d = true := ha d (by simp)
  have hin := starChCap_append p dr rest (fun cap r => k (d :: cap) r) v
    (fun c hc => ha c (by simp [hc])) hrest hk
  simp only [List.cons_append, plusChCap, hd, if_pos, hin]

theorem starChCap_eq_some (p : Char → Bool) :
    ∀ (s : List Char) (k : List Char → List Char → Option α) (v : α),
    starChCap p s k = some v →
    ∃ a b, s = a ++ b ∧ (∀ c ∈ a, p c = true) ∧ k a b = some v := by
  intro s
  induction s with
  | nil =>
    intro k v h
    exact ⟨[], [], rfl, by simp, by simpa [starChCap] using h⟩
  | cons c rest ih =>
    intro k v h
    by_cases hc : p c
    · rw [starChCap_cons_pos p c rest k hc] at h
      cases hin : starChCap p rest (fun cap r => k (c :: cap) r) with
      | some w =>
        rw [hin, orElse_some_left] at h
        have hvw : w = v := by simpa using h
        subst hvw
        obtain ⟨a, b, hab, hpa, hk⟩ := ih _ w hin
        refine ⟨c :: a, b, by simp [hab], ?_, hk⟩
        intro e he
        rcases List.mem_cons.mp he with he | he
        · subst he; exact hc
        · exact hpa e he
      | none =>
        rw [hin, orElse_none_left] at h
        exact ⟨[], c :: rest, rfl, by simp, h⟩
    · rw [starChCap_cons_neg p c rest k (by simpa using hc)] at h
      exact ⟨[], c :: rest, rfl, by simp, h⟩

theorem starChCap_eq_none (p : Char → Bool) (a : List Char) :
    ∀ (b : List Char) (k : List Char → List Char → Option α),
    (∀ c ∈ a, p c = true) →
    starChCap p (a ++ b) k = none → k a b = none := by
  induction a with
  | nil =>
    intro b k _ h
    match b with
    | [] => simpa [starChCap] using h
    | c :: r =>
      by_cases hc : p c
      · rw [List.nil_append, starChCap_cons_pos p c r k hc] at h
        cases hin : starChCap p r (fun cap r2 => k (c :: cap) r2) with
        | some w => rw [hin, orElse_some_left] at h; exact absurd h (by simp)
        | none => rw [hin, orElse_none_left] at h; exact h
      · rw [List.nil_append, starChCap_cons_neg p c r k (by simpa using hc)] at h
        exact h
  | cons d dr ih =>
    intro b k ha h
    have hd : p d = true := ha d (by simp)
    rw [List.cons_append, starChCap_cons_pos p d (dr ++ b) k hd] at h
    cases hin : starChCap p (dr ++ b) (fun cap r => k (d :: cap) r) with
    | some w => rw [hin, orElse_some_left] at h; exact absurd h (by simp)
    | none =>
      exact ih b (fun cap r => k (d :: cap) r) (fun c hc => ha c (by simp [hc])) hin

theorem starCh_run_to_end (p : Char → Bool) (s : List Char)
    (k : List Char → Option α) (v : α)
    (hs : ∀ c ∈ s, p c = true) (hk : k [] = some v) : starCh p s k = some v := by
  induction s with
  | nil => simpa [starCh] using hk
  | cons c rest ih =>
    have hc : p c = true := hs c (by simp)
    have hin := ih (fun e he => hs e (by simp [he]))
    rw [starCh_cons_pos p c rest k hc, hin, orElse_some_left]

theorem starCh_eq_some (p : Char → Bool) (s : List Char)
    (k : List Char → Option α) (v : α)
    (h : starCh p s k = some v) : ∃ b, k b = some v := by
  induction s with
  | nil => exact ⟨[], by simpa [starCh] using h⟩
  | cons c rest ih =>
    by_cases hc : p c
    · rw [starCh_cons_pos p c rest k hc] at h
      cases hin : starCh p rest k with
      | some w =>
        rw [hin, orElse_some_left] at h
        have hvw : w = v := by simpa using h
        subst hvw
        exact ih hin
      | none =>
        rw [hin, orElse_none_left] at h
        exact ⟨c :: rest, h⟩
    · rw [starCh_cons_neg p c rest k (by simpa using hc)] at h
      exact ⟨c :: rest, h⟩

theorem parse_step_error (acc : ParseState × List GroupRecord) (line : String)
    (e : String) (hr : match_runtime line = .error e) :
    parse_step acc line = .error e := by
  simp [parse_step, hr]

theorem parse_step_header (acc : ParseState × List GroupRecord) (line : String)
    (o : Option ℚ) (hh : (match_block_thread_size line).isSome = true)
    (hr : match_runtime line = .ok o) :
    parse_step acc line = .ok (⟨match_block_thread_size line, []⟩, parse_flush acc) := by
  simp [parse_step, hh, hr]

theorem parse_step_runtime (acc : ParseState × List GroupRecord) (line : String)
    (r : ℚ) (hh : match_block_thread_size line = none)
    (hr : match_runtime line = .ok (some r)) (h0 : r ≠ 0) :
    parse_step acc line =
      .ok (⟨acc.1.current_block_thread_size, acc.1.current_runtimes ++ [r]⟩, acc.2) := by
  simp [parse_step, hh, hr, h0]

theorem parse_step_zero (acc : ParseState × List GroupRecord) (line : String)
    (hh : match_block_thread_size line = none)
    (hr : match_runtime line = .ok (some 0)) : parse_step acc line = .ok acc := by
  simp [parse_step, hh, hr]

theorem parse_step_none (acc : ParseState × List GroupRecord) (line : String)
    (hh : match_block_thread_size line = none)
    (hr : match_runtime line = .ok none) : parse_step acc line = .ok acc := by
  simp [parse_step, hh, hr]

theorem parse_flush_length (st : ParseState) (res : List GroupRecord) :
    (parse_flush (st, res)).length =
      res.length + (if st.current_block_thread_size.isSome then 1 else 0) := by
  cases h : st.current_block_thread_size <;> simp [parse_flush, h]

theorem parse_count (lines : List String) :
    ∀ (st : ParseState) (res : List GroupRecord) (acc : ParseState × List GroupRecord),
    parse_fold lines (st, res) = .ok acc →
    (parse_flush acc).length =
      res.length + (if st.current_block_thread_size.isSome then 1 else 0) +
        lines.countP is_header_line := by
  induction lines with
  | nil =>
    intro st res acc h
    have hacc : (st, res) = acc := by simpa [parse_fold] using h
    rw [← hacc, parse_flush_length]
    simp
  | cons l rest ih =>
    intro st res acc h
    cases hs : parse_step (st, res) l with
    | error e =>
      rw [parse_fold, hs] at h
      exact absurd h (by simp)
    | ok acc1 =>
      rw [parse_fold, hs] at h
      cases hr : match_runtime l with
      | error e =>
        rw [parse_step_error (st, res) l e hr] at hs
        exact absurd hs (by simp)
      | ok o =>
        by_cases hl : (match_block_thread_size l).isSome = true
        · rw [parse_step_header (st, res) l o hl hr] at hs
          have hacc1 : (⟨match_block_thread_size l, []⟩, parse_flush (st, res)) = acc1 := by
            simpa using hs
          have hline : is_header_line l = true := hl
          have hcount := ih ⟨match_block_thread_size l, []⟩ (parse_flush (st, res)) acc
            (by rw [hacc1]; exact h)
          rw [hcount, parse_flush_length]
          simp only [List.countP_cons, hline, hl, if_pos]
          omega
        · have hh : match_block_thread_size l = none :=
            Option.not_isSome_iff_eq_none.mp (by simpa using hl)
          have hline : is_header_line l = false := by simp [is_header_line, hh]
          rcases o with _ | r
          · rw [parse_step_none (st, res) l hh hr] at hs
            have hacc1 : (st, res) = acc1 := by simpa using hs
            have hcount := ih st res acc (by rw [hacc1]; exact h)
            rw [hcount]
            simp [List.countP_cons, hline]
          · by_cases h0 : r = 0
            · subst h0
              rw [parse_step_zero (st, res) l hh hr] at hs
              have hacc1 : (st, res) = acc1 := by simpa using hs
              have hcount := ih st res acc (by rw [hacc1]; exact h)
              rw [hcount]
              simp [List.countP_cons, hline]
            · rw [parse_step_runtime (st, res) l r hh hr h0] at hs
              have hacc1 : ((⟨st.current_block_thread_size,
                  st.current_runtimes ++ [r]⟩ : ParseState), res) = acc1 := by
                simpa using hs
              have hcount := ih ⟨st.current_block_thread_size,
                st.current_runtimes ++ [r]⟩ res acc (by rw [hacc1]; exact h)
              rw [hcount]
              simp [List.countP_cons, hline]

theorem parse_pre_header (lines : List String) :
    ∀ (rs1 rs2 : List ℚ) (res : List GroupRecord) (acc : ParseState × List GroupRecord),
    parse_fold lines (⟨none, rs1⟩, res) = .ok acc →
    ∃ acc2, parse_fold (removePreHeaderRuntimes lines) (⟨none, rs2⟩, res) = .ok acc2 ∧
      parse_flush acc2 = parse_flush acc := by
  induction lines with
  | nil =>
    intro rs1 rs2 res acc h
    have hacc : ((⟨none, rs1⟩ : ParseState), res) = acc := by simpa [parse_fold] using h
    refine ⟨(⟨none, rs2⟩, res), by simp [removePreHeaderRuntimes, parse_fold], ?_⟩
    rw [← hacc]
    simp [parse_flush]
  | cons l rest ih =>
    intro rs1 rs2 res acc h
    cases hs : parse_step (⟨none, rs1⟩, res) l with
    | error e =>
      rw [parse_fold, hs] at h
      exact absurd h (by simp)
    | ok acc1 =>
      rw [parse_fold, hs] at h
      cases hr : match_runtime l with
      | error e =>
        rw [parse_step_error (⟨none, rs1⟩, res) l e hr] at hs
        exact absurd hs (by simp)
      | ok o =>
        by_cases hl : is_header_line l = true
        · rw [parse_step_header (⟨none, rs1⟩, res) l o hl hr] at hs
          have hflush1 : parse_flush ((⟨none, rs1⟩ : ParseState), res) = res := by
            simp [parse_flush]
          have hflush2 : parse_flush ((⟨none, rs2⟩ : ParseState), res) = res := by
            simp [parse_flush]
          refine ⟨acc, ?_, rfl⟩
          rw [removePreHeaderRuntimes, if_pos hl, parse_fold,
            parse_step_header (⟨none, rs2⟩, res) l o hl hr, hflush2]
          rw [hflush1] at hs
          have hacc1 : ((⟨match_block_thread_size l, []⟩ : ParseState), res) = acc1 := by
            simpa using hs
          rw [hacc1]
          exact h
        · have hh : match_block_thread_size l = none :=
            Option.not_isSome_iff_eq_none.mp (by simpa [is_header_line] using hl)
          rcases o with _ | r
          · have hrt : is_runtime_line l = false := by
              simp only [is_runtime_line]
              cases hg : match_runtime_groups l with
              | none => rfl
              | some g =>
                rw [ match_runtime, hg] at hr
                by_cases hz : digitsToNat g.2 = 0
                · simp [hz] at hr
                · simp [hz] at hr
            rw [parse_step_none (⟨none, rs1⟩, res) l hh hr] at hs
            have hacc1 : ((⟨none, rs1⟩ : ParseState), res) = acc1 := by simpa using hs
            obtain ⟨acc2, hacc2, hfl⟩ := ih rs1 rs2 res acc (by rw [hacc1]; exact h)
            refine ⟨acc2, ?_, hfl⟩
            rw [removePreHeaderRuntimes, if_neg (by simp [hl]), if_neg (by simp [hrt]),
              parse_fold, parse_step_none (⟨none, rs2⟩, res) l hh hr]
            exact hacc2
          · have hrt : is_runtime_line l = true := by
              simp only [is_runtime_line]
              cases hg : match_runtime_groups l with
              | none => rw [ match_runtime, hg] at hr; exact absurd hr (by simp)
              | some g => rfl
            by_cases h0 : r = 0
            · subst h0
              rw [parse_step_zero (⟨none, rs1⟩, res) l hh hr] at hs
              have hacc1 : ((⟨none, rs1⟩ : ParseState), res) = acc1 := by simpa using hs
              obtain ⟨acc2, hacc2, hfl⟩ := ih rs1 rs2 res acc (by rw [hacc1]; exact h)
              refine ⟨acc2, ?_, hfl⟩
              rw [removePreHeaderRuntimes, if_neg (by simp [hl]), if_pos hrt]
              exact hacc2
            · rw [parse_step_runtime (⟨none, rs1⟩, res) l r hh hr h0] at hs
              have hacc1 : ((⟨none, rs1 ++ [r]⟩ : ParseState), res) = acc1 := by
                simpa using hs
              obtain ⟨acc2, hacc2, hfl⟩ := ih (rs1 ++ [r]) rs2 res acc
                (by rw [hacc1]; exact h)
              refine ⟨acc2, ?_, hfl⟩
              rw [removePreHeaderRuntimes, if_neg (by simp [hl]), if_pos hrt]
              exact hacc2

theorem parse_flush_no_zero (st : ParseState) (res : List GroupRecord)
    (hst : (0 : ℚ) ∉ st.current_runtimes)
    (hres : ∀ r ∈ res, (0 : ℚ) ∉ r.samples) :
    ∀ g ∈ parse_flush (st, res), (0 : ℚ) ∉ g.samples := by
  intro g hg
  cases hh : st.current_block_thread_size with
  | some bt =>
    simp only [parse_flush, hh] at hg
    rcases List.mem_append.mp hg with hg | hg
    · exact hres g hg
    · have hgeq : g = ⟨bt.1, bt.2, st.current_runtimes⟩ := by simpa using hg
      rw [hgeq]
      exact hst
  | none =>
    simp only [parse_flush, hh] at hg
    exact hres g hg

theorem parse_no_zero (lines : List String) :
    ∀ (st : ParseState) (res : List GroupRecord) (acc : ParseState × List GroupRecord),
    (0 : ℚ) ∉ st.current_runtimes →
    (∀ r ∈ res, (0 : ℚ) ∉ r.samples) →
    parse_fold lines (st, res) = .ok acc →
    ∀ g ∈ parse_flush acc, (0 : ℚ) ∉ g.samples := by
  induction lines with
  | nil =>
    intro st res acc hst hres h
    have hacc : (st, res) = acc := by simpa [parse_fold] using h
    rw [← hacc]
    exact parse_flush_no_zero st res hst hres
  | cons l rest ih =>
    intro st res acc hst hres h
    cases hs : parse_step (st, res) l with
    | error e =>
      rw [parse_fold, hs] at h
      exact absurd h (by simp)
    | ok acc1 =>
      rw [parse_fold, hs] at h
      cases hr : match_runtime l with
      | error e =>
        rw [parse_step_error (st, res) l e hr] at hs
        exact absurd hs (by simp)
      | ok o =>
        by_cases hl : (match_block_thread_size l).isSome = true
        · rw [parse_step_header (st, res) l o hl hr] at hs
          have hacc1 : ((⟨match_block_thread_size l, []⟩ : ParseState),
              parse_flush (st, res)) = acc1 := by simpa using hs
          exact ih ⟨match_block_thread_size l, []⟩ (parse_flush (st, res)) acc
            (by simp) (parse_flush_no_zero st res hst hres) (by rw [hacc1]; exact h)
        · have hh : match_block_thread_size l = none :=
            Option.not_isSome_iff_eq_none.mp (by simpa using hl)
          rcases o with _ | r
          · rw [parse_step_none (st, res) l hh hr] at hs
            have hacc1 : (st, res) = acc1 := by simpa using hs
            exact ih st res acc hst hres (by rw [hacc1]; exact h)
          · by_cases h0 : r = 0
            · subst h0
              rw [parse_step_zero (st, res) l hh hr] at hs
              have hacc1 : (st, res) = acc1 := by simpa using hs
              exact ih st res acc hst hres (by rw [hacc1]; exact h)
            · rw [parse_step_runtime (st, res) l r hh hr h0] at hs
              have hacc1 : ((⟨st.current_block_thread_size,
                  st.current_runtimes ++ [r]⟩ : ParseState), res) = acc1 := by
                simpa using hs
              refine ih ⟨st.current_block_thread_size, st.current_runtimes ++ [r]⟩
                res acc ?_ hres (by rw [hacc1]; exact h)
              intro hmem
              rcases List.mem_append.mp hmem with hm | hm
              · exact hst hm
              · have h0r : (0 : ℚ) = r := by simpa using hm
                exact h0 h0r.symm

theorem list_index_not_mem (xs : List Nat) (v : Nat) (h : v ∉ xs) :
    list_index xs v = .error (toString v ++ " is not in list") := by
  induction xs with
  | nil => rfl
  | cons x rest ih =>
    have hx : ¬ x = v := fun he => h (by simp [he])
    have hrest : v ∉ rest := fun hm => h (by simp [hm])
    simp [list_index, hx, ih hrest]

theorem list_index_mem (xs : List Nat) (v : Nat) (h : v ∈ xs) :
    ∃ i, list_index xs v = .ok i := by
  induction xs with
  | nil => simp at h
  | cons x rest ih =>
    by_cases hx : x = v
    · exact ⟨0, by simp [list_index, hx]⟩
    · have hm : v ∈ rest := by
        rcases List.mem_cons.mp h with h1 | h1
        · exact absurd h1.symm hx
        · exact h1
      obtain ⟨i, hi⟩ := ih hm
      exact ⟨i + 1, by simp [list_index, hx, hi]⟩
theorem match_runtime_of_groups (line : String)
    (g : (List Char × List Char) × List Char)
    (hg : match_runtime_groups line = some g) (hz : digitsToNat g.2 ≠ 0) :
    match_runtime line =
      .ok (some (decimalVal g.1.1 g.1.2 / (digitsToNat g.2 : ℚ))) := by
  rw [ match_runtime, hg]
  simp [hz]

theorem plusChCap_eq_some (p : Char → Bool) (s : List Char)
    (k : List Char → List Char → Option α) (v : α)
    (h : plusChCap p s k = some v) :
    ∃ a b, s = a ++ b ∧ a ≠ [] ∧ (∀ c ∈ a, p c = true) ∧ k a b = some v := by
  match s with
  | [] => simp [plusChCap] at h
  | c :: rest =>
    by_cases hc : p c
    · simp only [plusChCap, hc, if_pos] at h
      obtain ⟨a, b, hab, hpa, hk⟩ := starChCap_eq_some p rest _ v h
      refine ⟨c :: a, b, by simp [hab], by simp, ?_, hk⟩
      intro e he
      rcases List.mem_cons.mp he with he | he
      · subst he; exact hc
      · exact hpa e he
    · simp [plusChCap, hc] at h

/-- C1 counterexample: the claim says a Group Record is never emitted for a
group with zero Runtime Samples, but on an input of two consecutive header
lines `parse_file` completes and emits two records, both with an empty sample
list (the truthiness test `if current_block_thread_size:` holds for any
nonempty tuple, whether or not any runtime line was collected). -/
theorem C1_counterexample :
    parse_lines ["# OPEN3D_PARFOR_BLOCK: 1, OPEN3D_PARFOR_THREAD: 2",
      "# OPEN3D_PARFOR_BLOCK: 4, OPEN3D_PARFOR_THREAD: 8"] =
    .ok [⟨1, 2, []⟩, ⟨4, 8, []⟩] := rfl

/-- C1 (amended): whenever `parse_file` completes without raising, it emits
exactly one Group Record per header-matching line — a group is closed by the
next header or by the end of file regardless of how many runtime samples were
collected, so zero-sample groups are emitted too (their geometric mean is
then taken of an empty sequence); a runtime line with trailing divisor `0`
instead aborts the whole run with `ZeroDivisionError` and nothing is
emitted. -/
theorem C1_record_per_header (lines : List String) (res : List GroupRecord)
    (h : parse_lines lines = .ok res) :
    res.length = lines.countP is_header_line := by
  rw [parse_lines] at h
  cases hf : parse_fold lines (⟨none, []⟩, []) with
  | error e =>
    rw [hf] at h
    exact absurd h (by simp [Except.map])
  | ok acc =>
    rw [hf] at h
    have hres : parse_flush acc = res := by simpa [Except.map] using h
    have hcount := parse_count lines ⟨none, []⟩ [] acc hf
    rw [hres] at hcount
    simpa using hcount

/-- Witness for C1: the amended count law applied to the two-header input. -/
theorem C1_witness :
    ([(⟨1, 2, []⟩ : GroupRecord), ⟨4, 8, []⟩].length =
      ["# OPEN3D_PARFOR_BLOCK: 1, OPEN3D_PARFOR_THREAD: 2",
        "# OPEN3D_PARFOR_BLOCK: 4, OPEN3D_PARFOR_THREAD: 8"].countP is_header_line) :=
  C1_record_per_header _ _ (by rfl)

/-- C2 counterexample: on `"a 12.0 ms b 4.0 ms c 8 ms 2"` — a line of the
claimed form `... X ms ... ms N` whose first float is `12.0` and trailing
integer is `2` — the Runtime Matcher returns `4.0 / 2 = 2.0`, not
`12.0 / 2 = 6.0`: the greedy leading `.*` makes the pattern capture the
rightmost feasible float, not the first one. -/
theorem C2_counterexample :
    match_runtime "a 12.0 ms b 4.0 ms c 8 ms 2" = .ok (some 2) ∧
      match_runtime "a 12.0 ms b 4.0 ms c 8 ms 2" ≠ .ok (some 6) := by
  have hg : match_runtime_groups "a 12.0 ms b 4.0 ms c 8 ms 2" =
      some ((['4'], ['0']), ['2']) := by decide
  have h4 : digitsToNat ['4'] = 4 := by decide
  have h0 : digitsToNat ['0'] = 0 := by decide
  have h2 : digitsToNat ['2'] = 2 := by decide
  have hval : match_runtime "a 12.0 ms b 4.0 ms c 8 ms 2" = .ok (some 2) := by
    rw [ match_runtime, hg]
    simp [decimalVal, h4, h0, h2]
    norm_num
  refine ⟨hval, ?_⟩
  rw [hval]
  intro hcon
  rw [Except.ok.injEq, Option.some.injEq] at hcon
  exact absurd hcon (by norm_num)

/-- C2 (amended): the Runtime Matcher returns `X / N` where `X` is the
rightmost float (followed by a literal ` ms `) from which the rest of the
pattern can still match, not necessarily the first float on the line: on
`"foo 12.0 ms bar 4 ms 2"` it returns `6.0` (here the rightmost feasible
float is the first one), while on `"a 12.0 ms b 4.0 ms c 8 ms 2"` it returns
`4.0 / 2 = 2.0`. -/
theorem C2_runtime_matcher_greedy :
    match_runtime "foo 12.0 ms bar 4 ms 2" = .ok (some 6) ∧
      match_runtime "a 12.0 ms b 4.0 ms c 8 ms 2" = .ok (some 2) := by
  have h1 : digitsToNat ['1', '2'] = 12 := by decide
  have h4 : digitsToNat ['4'] = 4 := by decide
  have h0 : digitsToNat ['0'] = 0 := by decide
  have h2 : digitsToNat ['2'] = 2 := by decide
  constructor
  · have hg : match_runtime_groups "foo 12.0 ms bar 4 ms 2" =
        some ((['1', '2'], ['0']), ['2']) := by decide
    rw [ match_runtime, hg]
    simp [decimalVal, h1, h0, h2]
    norm_num
  · have hg : match_runtime_groups "a 12.0 ms b 4.0 ms c 8 ms 2" =
        some ((['4'], ['0']), ['2']) := by decide
    rw [ match_runtime, hg]
    simp [decimalVal, h4, h0, h2]
    norm_num

/-- C3 counterexample: the header pattern has no trailing anchor, so a line
that starts with a valid header and ends with runtime-shaped text matches
both patterns — the Header Matcher and the runtime pattern are not mutually
exclusive. -/
theorem C3_counterexample :
    (match_block_thread_size
        "# OPEN3D_PARFOR_BLOCK: 1, OPEN3D_PARFOR_THREAD: 2 ms ms 3").isSome = true ∧
      (match_runtime_groups
        "# OPEN3D_PARFOR_BLOCK: 1, OPEN3D_PARFOR_THREAD: 2 ms ms 3").isSome = true := by
  constructor
  · decide
  · decide

/-- C3 (amended): the two patterns are not mutually exclusive (see the
counterexample), and the source evaluates `match_runtime(line)`
unconditionally before any branch: when that evaluation raises
(`ZeroDivisionError`, trailing divisor `0`), the run aborts even on a
header-accepted line; when it does not raise, the Header Matcher — tried
first — wins, and the line is processed as a header with a fresh empty
sample list, its runtime interpretation ignored. -/
theorem C3_header_tried_first :
    (∀ (st : ParseState) (res : List GroupRecord) (line : String) (o : Option ℚ),
      (match_block_thread_size line).isSome = true →
      match_runtime line = .ok o →
      parse_step (st, res) line =
        .ok (⟨match_block_thread_size line, []⟩, parse_flush (st, res))) ∧
    (∀ (st : ParseState) (res : List GroupRecord) (line : String) (e : String),
      match_runtime line = .error e → parse_step (st, res) line = .error e) := by
  constructor
  · intro st res line o hl hr
    exact parse_step_header (st, res) line o hl hr
  · intro st res line e hr
    exact parse_step_error (st, res) line e hr

/-- Witness for C3: the header-priority half applied to the both-matching
line (runtime value `2 / 3`, so the runtime evaluation does not raise). -/
theorem C3_witness :
    parse_step (⟨none, []⟩, [])
        "# OPEN3D_PARFOR_BLOCK: 1, OPEN3D_PARFOR_THREAD: 2 ms ms 3" =
      .ok (⟨match_block_thread_size
          "# OPEN3D_PARFOR_BLOCK: 1, OPEN3D_PARFOR_THREAD: 2 ms ms 3", []⟩,
        parse_flush (⟨none, []⟩, [])) :=
  C3_header_tried_first.1 ⟨none, []⟩ []
    "# OPEN3D_PARFOR_BLOCK: 1, OPEN3D_PARFOR_THREAD: 2 ms ms 3" _ (by decide)
    (match_runtime_of_groups _ ((['2'], []), ['3']) (by decide) (by decide))

/-- C4: the Header Matcher returns exactly `(B, T)` on every line of the form
`# OPEN3D_PARFOR_BLOCK: B, OPEN3D_PARFOR_THREAD: T` with `B`, `T` nonempty
decimal digit strings, and returns `none` on every line that does not match
the pattern — that is, on every line that does not decompose as the literal
prefix, a nonempty digit string, the literal middle, a nonempty digit string
and arbitrary trailing text.  It is a total function, so it never raises. -/
theorem C4_header_matcher :
    (∀ bs ts : List Char, bs ≠ [] → ts ≠ [] →
      (∀ c ∈ bs, c.isDigit = true) → (∀ c ∈ ts, c.isDigit = true) →
      match_block_thread_size (hdrPre ++ String.mk bs ++ hdrMid ++ String.mk ts) =
        some (digitsToNat bs, digitsToNat ts)) ∧
    (∀ line : String,
      (¬ ∃ bs ts rest : List Char,
        line.toList = hdrPre.toList ++ bs ++ hdrMid.toList ++ ts ++ rest ∧
        bs ≠ [] ∧ (∀ c ∈ bs, c.isDigit = true) ∧
        ts ≠ [] ∧ (∀ c ∈ ts, c.isDigit = true)) →
      match_block_thread_size line = none) := by
  constructor
  · intro bs ts hbs hts hdbs hdts
    rcases bs with _ | ⟨b, br⟩
    · exact absurd rfl hbs
    rcases ts with _ | ⟨t, tr⟩
    · exact absurd rfl hts
    have hlist : (hdrPre ++ String.mk (b :: br) ++ hdrMid ++ String.mk (t :: tr)).toList =
        hdrPre.toList ++ ((b :: br) ++ (hdrMid.toList ++ (t :: tr))) := by
      simp [String.toList, List.append_assoc]
    rw [match_block_thread_size, hlist, litP_self]
    apply plusChCap_append Char.isDigit b br (hdrMid.toList ++ (t :: tr)) _ _ hdbs
      (Or.inr ⟨',', " OPEN3D_PARFOR_THREAD: ".toList ++ (t :: tr), rfl, by decide⟩)
    rw [litP_self]
    have happ := plusChCap_append Char.isDigit t tr []
      (fun g2 _r => some (digitsToNat (b :: br), digitsToNat g2))
      (digitsToNat (b :: br), digitsToNat (t :: tr)) hdts (Or.inl rfl) rfl
    simpa using happ
  · intro line hno
    cases hm : match_block_thread_size line with
    | none => rfl
    | some bt =>
      exfalso
      apply hno
      rw [match_block_thread_size] at hm
      obtain ⟨x1, hx1, hk1⟩ := litP_some hdrPre.toList _ bt line.toList hm
      obtain ⟨bs, b1, hb1, hbsne, hbsd, hk2⟩ := plusChCap_eq_some Char.isDigit x1 _ bt hk1
      obtain ⟨x2, hx2, hk3⟩ := litP_some hdrMid.toList _ bt b1 hk2
      obtain ⟨ts, rest, hrest, htsne, htsd, _⟩ := plusChCap_eq_some Char.isDigit x2 _ bt hk3
      refine ⟨bs, ts, rest, ?_, hbsne, hbsd, htsne, htsd⟩
      rw [hx1, hb1, hx2, hrest]
      simp [List.append_assoc]

/-- Witness for C4: the positive half applied at `B = 12`, `T = 3`. -/
theorem C4_witness :
    match_block_thread_size (hdrPre ++ String.mk ['1', '2'] ++ hdrMid ++ String.mk ['3']) =
      some (digitsToNat ['1', '2'], digitsToNat ['3']) :=
  C4_header_matcher.1 ['1', '2'] ['3'] (by decide) (by decide) (by decide) (by decide)

/-- C5: a Group Record whose `block_size` (or, the block size being valid,
whose `thread_size`) is not among the nine candidates makes the grid fill
step fail with the `list.index` error `"<value> is not in list"` naming the
offending value, and the failure aborts the whole fill loop; in particular
`block_size = 3` aborts the run with `"3 is not in list"`. -/
theorem C5_grid_value_not_found :
    (∀ (g : Nat → Nat → ℚ) (r : AggRecord), r.block_size ∉ block_sizes →
      fill_step g r = .error (toString r.block_size ++ " is not in list")) ∧
    (∀ (g : Nat → Nat → ℚ) (r : AggRecord), r.block_size ∈ block_sizes →
      r.thread_size ∉ thread_sizes →
      fill_step g r = .error (toString r.thread_size ++ " is not in list")) ∧
    (∀ rest : List AggRecord,
      fill_grid (⟨3, 1, 1⟩ :: rest) = .error "3 is not in list") := by
  refine ⟨?_, ?_, ?_⟩
  · intro g r h
    simp [fill_step, list_index_not_mem block_sizes r.block_size h]
  · intro g r hb ht
    obtain ⟨y, hy⟩ := list_index_mem block_sizes r.block_size hb
    simp [fill_step, hy, list_index_not_mem thread_sizes r.thread_size ht]
  · intro rest
    have hstep : fill_step init_grid ⟨3, 1, 1⟩ = .error "3 is not in list" := rfl
    simp [fill_grid, fill_grid_from, hstep]

/-- Witness for C5: the first half applied to a record with
`block_size = 3`. -/
theorem C5_witness :
    fill_step init_grid ⟨3, 4, 1⟩ = .error (toString (3 : Nat) ++ " is not in list") :=
  C5_grid_value_not_found.1 init_grid ⟨3, 4, 1⟩ (by decide)

/-- C6: the grid starts with every cell at the sentinel `-1`; a Group Record
whose header values have positions `y` and `x` among the candidates gets its
geometric mean, rounded to two decimal digits, written at grid position
`[y, x]`; and the positions of `block_size = 2`, `thread_size = 4` are `1`
and `2` (0-indexed). -/
theorem C6_grid_builder :
    (∀ y x : Nat, init_grid y x = -1) ∧
    (∀ (g : Nat → Nat → ℚ) (r : AggRecord) (y x : Nat),
      list_index block_sizes r.block_size = .ok y →
      list_index thread_sizes r.thread_size = .ok x →
      fill_step g r = .ok (update2 g y x (round2 r.gmean))) ∧
    (list_index block_sizes 2 = .ok 1 ∧ list_index thread_sizes 4 = .ok 2) := by
  refine ⟨fun y x => rfl, ?_, rfl, rfl⟩
  intro g r y x hy hx
  simp [fill_step, hy, hx]

/-- Witness for C6: the fill step applied to a record with `block_size = 2`,
`thread_size = 4` writes at grid position `[1, 2]`. -/
theorem C6_witness :
    fill_step init_grid ⟨2, 4, 5⟩ = .ok (update2 init_grid 1 2 (round2 5)) :=
  C6_grid_builder.2.1 init_grid ⟨2, 4, 5⟩ 1 2 rfl rfl

/-- C7: the geometric mean `geo_mean` satisfies `geo_mean [a] = a` for
positive `a`, `geo_mean` of `n ≥ 1` copies of a positive `a` is `a`, and
`geo_mean [1, 4] = 2`. -/
theorem C7_geo_mean :
    (∀ a : ℝ, 0 < a → geo_mean [a] = a) ∧
    (∀ (a : ℝ) (n : ℕ), 0 < a → 1 ≤ n → geo_mean (List.replicate n a) = a) ∧
    geo_mean [(1 : ℝ), 4] = 2 := by
  refine ⟨?_, ?_, ?_⟩
  · intro a ha
    rw [geo_mean]
    norm_num
  · intro a n ha hn
    rw [geo_mean, List.prod_replicate, List.length_replicate]
    have hne : (n : ℝ) ≠ 0 := Nat.cast_ne_zero.mpr (by omega)
    rw [← Real.rpow_natCast a n, ← Real.rpow_mul ha.le, mul_one_div, div_self hne,
      Real.rpow_one]
  · rw [geo_mean]
    norm_num
    rw [show (4 : ℝ) = (2 : ℝ) ^ (2 : ℕ) by norm_num, ← Real.rpow_natCast (2 : ℝ) 2,
      ← Real.rpow_mul (by norm_num : (0 : ℝ) ≤ 2)]
    norm_num

/-- Witness for C7: the singleton law applied at `a = 3`. -/
theorem C7_witness : geo_mean [(3 : ℝ)] = 3 :=
  C7_geo_mean.1 3 (by norm_num)

theorem anyCh_of_mem (f : List Char) (hnl : '\n' ∉ f) (c : Char) (hc : c ∈ f) :
    anyCh c = true := by
  simp only [anyCh, decide_eq_true_eq]
  intro he
  rw [he] at hc
  exact hnl hc

theorem extract_ok_split (f p : String) (h : extract_cpu_prefix f = .ok p) :
    ∃ a b, f.toList = (a ++ "_CPU".toList) ++ b ∧ p.toList = a ++ "_CPU".toList := by
  rw [ extract_cpu_prefix] at h
  cases hm : starChCap anyCh f.toList (fun cap rest =>
      litP "_CPU".toList rest (fun rest2 =>
      starCh anyCh rest2 (fun rest3 =>
      if endP rest3 then some (cap ++ "_CPU".toList) else none))) with
  | none => rw [hm] at h; exact absurd h (by simp)
  | some q =>
    rw [hm] at h
    injection h with hpq
    obtain ⟨a, b, hab, hpa, hk⟩ := starChCap_eq_some anyCh f.toList _ q hm
    obtain ⟨x, hx, hk2⟩ := litP_some "_CPU".toList _ q b hk
    obtain ⟨b2, hk3⟩ := starCh_eq_some anyCh x _ q hk2
    have hq : a ++ "_CPU".toList = q := by
      by_cases he : endP b2 = true
      · simpa [he] using hk3
      · simp [he] at hk3
    refine ⟨a, x, by rw [hab, hx, ← List.append_assoc], ?_⟩
    rw [← hpq]
    exact hq.symm

theorem extract_ok_of_infix (f : String) (hnl : '\n' ∉ f.toList)
    (pre post : List Char) (hsplit : f.toList = pre ++ "_CPU".toList ++ post) :
    ∃ p, extract_cpu_prefix f = .ok p := by
  rw [ extract_cpu_prefix]
  cases hm : starChCap anyCh f.toList (fun cap rest =>
      litP "_CPU".toList rest (fun rest2 =>
      starCh anyCh rest2 (fun rest3 =>
      if endP rest3 then some (cap ++ "_CPU".toList) else none))) with
  | some q => exact ⟨String.mk q, rfl⟩
  | none =>
    exfalso
    have hassoc : f.toList = pre ++ ("_CPU".toList ++ post) := by
      rw [hsplit, List.append_assoc]
    have h2 := starChCap_eq_none anyCh pre ("_CPU".toList ++ post)
      (fun cap rest =>
        litP "_CPU".toList rest (fun rest2 =>
        starCh anyCh rest2 (fun rest3 =>
        if endP rest3 then some (cap ++ "_CPU".toList) else none)))
      (fun c hc => anyCh_of_mem f.toList hnl c (by rw [hassoc]; simp [hc]))
      (by rw [← hassoc]; exact hm)
    simp only [] at h2
    rw [litP_self] at h2
    have h3 := starCh_run_to_end anyCh post
      (fun rest3 => if endP rest3 then some (pre ++ "_CPU".toList) else none)
      (pre ++ "_CPU".toList)
      (fun c hc => anyCh_of_mem f.toList hnl c (by rw [hassoc]; simp [hc]))
      rfl
    rw [h3] at h2
    exact absurd h2 (by simp)

theorem extract_error_of_not_infix (f : String)
    (h : ¬ ∃ pre post, f.toList = pre ++ "_CPU".toList ++ post) :
    extract_cpu_prefix f = .error ("Invalid log file " ++ f) := by
  rw [ extract_cpu_prefix]
  cases hm : starChCap anyCh f.toList (fun cap rest =>
      litP "_CPU".toList rest (fun rest2 =>
      starCh anyCh rest2 (fun rest3 =>
      if endP rest3 then some (cap ++ "_CPU".toList) else none))) with
  | some q =>
    exfalso
    obtain ⟨a, b, hab, hpa, hk⟩ := starChCap_eq_some anyCh f.toList _ q hm
    obtain ⟨x, hx, _⟩ := litP_some "_CPU".toList _ q b hk
    exact h ⟨a, x, by rw [hab, hx, ← List.append_assoc]⟩
  | none => rfl

/-- C8 counterexample: `"a_CPU\nb"` contains a `_CPU` segment, yet
`extract_cpu_prefix` raises on it — in Python `.` does not match a newline
and `$` only matches at the end (or before a final newline), so the pattern
`^(.*_CPU).*$` fails on filenames whose `_CPU` is followed by an interior
newline.  The claimed equivalence "raises iff `_CPU` is absent" is therefore
false. -/
theorem C8_counterexample :
    "a_CPU\nb".toList = "a".toList ++ "_CPU".toList ++ "\nb".toList ∧
      extract_cpu_prefix "a_CPU\nb" = .error "Invalid log file a_CPU\nb" :=
  ⟨rfl, rfl⟩

/-- C8 (amended): for every newline-free filename, `extract_cpu_prefix`
returns a prefix of the filename ending in `_CPU` when the filename contains
a `_CPU` segment, and raises the validation error exactly when it does not;
on `"benchmark_Intel_CPU_with_dummy.log"` it returns
`"benchmark_Intel_CPU"`. -/
theorem C8_cpu_prefix_amended :
    (∀ f : String, '\n' ∉ f.toList →
      ((∃ pre post, f.toList = pre ++ "_CPU".toList ++ post) →
        ∃ p, extract_cpu_prefix f = .ok p ∧
          (∃ a, p.toList = a ++ "_CPU".toList) ∧
          (∃ b, f.toList = p.toList ++ b)) ∧
      ((¬ ∃ pre post, f.toList = pre ++ "_CPU".toList ++ post) →
        extract_cpu_prefix f = .error ("Invalid log file " ++ f))) ∧
    extract_cpu_prefix "benchmark_Intel_CPU_with_dummy.log" = .ok "benchmark_Intel_CPU" := by
  constructor
  · intro f hnl
    constructor
    · rintro ⟨pre, post, hsplit⟩
      obtain ⟨p, hp⟩ := extract_ok_of_infix f hnl pre post hsplit
      obtain ⟨a, b, hab, hpa⟩ := extract_ok_split f p hp
      exact ⟨p, hp, ⟨a, hpa⟩, ⟨b, by rw [hab, hpa]⟩⟩
    · exact extract_error_of_not_infix f
  · rfl

/-- Witness for C8: the amended theorem applied to the newline-free filename
`"a_CPUb"`, which contains a `_CPU` segment. -/
theorem C8_witness :
    ∃ p, extract_cpu_prefix "a_CPUb" = .ok p ∧
      (∃ a, p.toList = a ++ "_CPU".toList) ∧
      (∃ b, "a_CPUb".toList = p.toList ++ b) :=
  (C8_cpu_prefix_amended.1 "a_CPUb" (by decide)).1 ⟨"a".toList, "b".toList, rfl⟩

theorem parse_fold_cons_ok (l : String) (rest : List String)
    (acc acc2 : ParseState × List GroupRecord) (h : parse_step acc l = .ok acc2) :
    parse_fold (l :: rest) acc = parse_fold rest acc2 := by
  simp [parse_fold, h]

/-- C9 counterexample: a pre-header runtime line with trailing divisor `0`
does influence the Log Parser's output — the source raises
`ZeroDivisionError` on it (the unconditional `match_runtime` call divides by
`float("0")`) and the run aborts with no records, while the same sequence
with its pre-header runtime lines removed parses to one record. -/
theorem C9_counterexample :
    parse_lines ["x 5 ms y ms 0",
        "# OPEN3D_PARFOR_BLOCK: 1, OPEN3D_PARFOR_THREAD: 2"] =
      .error "float division by zero" ∧
    parse_lines (removePreHeaderRuntimes ["x 5 ms y ms 0",
        "# OPEN3D_PARFOR_BLOCK: 1, OPEN3D_PARFOR_THREAD: 2"]) =
      .ok [⟨1, 2, []⟩] :=
  ⟨rfl, rfl⟩

/-- C9 (amended): on every run that completes without raising, runtime values
appearing before the first header line never influence the output — the
emitted record list equals the one produced with all pre-header runtime lines
removed (such values are appended to `current_runtimes`, but that list is
reset when the first header arrives, and without any header the final save is
skipped).  A pre-header runtime line with trailing divisor `0`, however,
aborts the run with `ZeroDivisionError`, which its removal avoids. -/
theorem C9_pre_header_runtimes_ignored (lines : List String)
    (res : List GroupRecord) (h : parse_lines lines = .ok res) :
    parse_lines (removePreHeaderRuntimes lines) = .ok res := by
  rw [parse_lines] at h
  cases hf : parse_fold lines (⟨none, []⟩, []) with
  | error e =>
    rw [hf] at h
    exact absurd h (by simp [Except.map])
  | ok acc =>
    rw [hf] at h
    have hres : parse_flush acc = res := by simpa [Except.map] using h
    obtain ⟨acc2, hacc2, hfl⟩ := parse_pre_header lines [] [] [] acc hf
    rw [parse_lines, hacc2]
    simp [Except.map, hfl, hres]

/-- Witness for C9: the amended theorem applied to a sequence whose
pre-header runtime line has the value `0.0` (a line the filter removes),
followed by a header line. -/
theorem C9_witness :
    parse_lines (removePreHeaderRuntimes ["x 0 ms y ms 3",
        "# OPEN3D_PARFOR_BLOCK: 1, OPEN3D_PARFOR_THREAD: 2"]) =
      .ok [⟨1, 2, []⟩] :=
  C9_pre_header_runtimes_ignored _ _ (by
    have hg : match_runtime_groups "x 0 ms y ms 3" = some ((['0'], []), ['3']) := by
      decide
    have h0 : digitsToNat ['0'] = 0 := by decide
    have h3 : digitsToNat ['3'] = 3 := by decide
    have he : digitsToNat ([] : List Char) = 0 := rfl
    have hr : match_runtime "x 0 ms y ms 3" = .ok (some 0) := by
      rw [ match_runtime, hg]
      simp [decimalVal, h0, h3, he]
    have hh : match_block_thread_size "x 0 ms y ms 3" = none := by decide
    rw [parse_lines,
      parse_fold_cons_ok _ _ _ _ (parse_step_zero (⟨none, []⟩, []) _ hh hr)]
    rfl)

/-- C10: a (non-header) line on which the Runtime Matcher returns exactly
`0.0` — zero numerator over a nonzero divisor — is silently discarded:
`elif runtime:` tests the truthiness of the float and `0.0` is falsy, so the
parser state is unchanged on such a line, and consequently no Group Record
emitted by a completed run ever contains the sample `0`. -/
theorem C10_zero_runtime_discarded :
    (∀ (st : ParseState) (res : List GroupRecord) (line : String),
      match_runtime line = .ok (some 0) → match_block_thread_size line = none →
      parse_step (st, res) line = .ok (st, res)) ∧
    (∀ (lines : List String) (res : List GroupRecord) (g : GroupRecord),
      parse_lines lines = .ok res → g ∈ res → (0 : ℚ) ∉ g.samples) := by
  constructor
  · intro st res line hr hh
    exact parse_step_zero (st, res) line hh hr
  · intro lines res g h hg
    rw [parse_lines] at h
    cases hf : parse_fold lines (⟨none, []⟩, []) with
    | error e =>
      rw [hf] at h
      exact absurd h (by simp [Except.map])
    | ok acc =>
      rw [hf] at h
      have hres : parse_flush acc = res := by simpa [Except.map] using h
      exact parse_no_zero lines ⟨none, []⟩ [] acc (by simp) (by simp) hf g
        (by rw [hres]; exact hg)

/-- Witness for C10: the discard law applied to the line `"x 0 ms y ms 3"`
(runtime value `0 / 3 = 0.0`) with an open group and a collected sample. -/
theorem C10_witness :
    parse_step (⟨some (1, 2), [(5 : ℚ)]⟩, []) "x 0 ms y ms 3" =
      .ok (⟨some (1, 2), [(5 : ℚ)]⟩, []) :=
  C10_zero_runtime_discarded.1 ⟨some (1, 2), [(5 : ℚ)]⟩ [] "x 0 ms y ms 3"
    (by
      have hg : match_runtime_groups "x 0 ms y ms 3" = some ((['0'], []), ['3']) := by
        decide
      have h0 : digitsToNat ['0'] = 0 := by decide
      have h3 : digitsToNat ['3'] = 3 := by decide
      have he : digitsToNat ([] : List Char) = 0 := rfl
      rw [ match_runtime, hg]
      simp [decimalVal, h0, h3, he])
    (by decide)
